import Mathlib

/-! # Comparison page (`src/pages/Compare.jsx`)

A shallow embedding of the three operations of the `Compare` component:
`loadCompareItems`, `loadGuestCompareItems` and `removeFromCompare`.

The component's React state (`compareItems`, `loading`) and the browser's
local store cell `compareItems` are an explicit `State`; every call on a
collaborator (state setters, toasts, the event bus, the remote API, the local
store, the console) is recorded, in program order, in a trace of `Effect`s.
The outcomes of the collaborators (what the remote calls resolve or reject
with, what each product lookup gives) are parameters of the operations.
An operation run to its end is a `Run`: the final state, the trace, and whether
the `async` function returned or threw (rejected its promise).
-/

namespace Compare

/-! ## JavaScript values -/

/-- A JavaScript value as far as this page looks at it: the primitives, and
`object ref` for any non-primitive value, compared by reference. Numbers are
the integers (`NaN` and fractions are not modelled). -/
inductive JSVal where
  | undefined
  | null
  | bool (b : Bool)
  | num (n : Int)
  | str (s : String)
  | object (ref : Nat)
  deriving DecidableEq, Repr

/-- JavaScript truthiness: `undefined`, `null`, `false`, `0` and `''` are falsy. -/
def JSVal.truthy : JSVal → Bool
  | .undefined => false
  | .null => false
  | .bool b => b
  | .num n => n != 0
  | .str s => s != ""
  | .object _ => true

/-- The JavaScript `a || b`. -/
def JSVal.or (a b : JSVal) : JSVal :=
  if a.truthy then a else b

/-- Whether `pat` occurs in `cs` as a contiguous run of characters. -/
def includesChars (pat : List Char) : List Char → Bool
  | [] => pat.isPrefixOf []
  | c :: cs => pat.isPrefixOf (c :: cs) || includesChars pat cs

/-- The JavaScript `s.includes(pat)` on strings. -/
def includes (s pat : String) : Bool :=
  includesChars pat.data s.data

/-! ## Data model -/

/-- A product record of the comparison list. `_id` and `id` are the two
identifier fields the page reads (`undefined` when the record lacks the
field); `details` stands for the rest of the record (name, price, image ...). -/
structure Entry where
  _id : JSVal
  id : JSVal
  details : Nat
  deriving DecidableEq, Repr

/-- The identifier the removal filter reads from an entry: `item._id || item.id`. -/
def Entry.itemId (item : Entry) : JSVal :=
  item._id.or item.id

/-- What `JSON.parse` returns on a text it accepts. An array holds its
elements; an object carries what its `length` property reads (`undefined`
when it has none). No decoded value has a callable `map` or `filter` except
an array. -/
inductive Parsed where
  | null
  | bool (b : Bool)
  | num (n : Int)
  | str (s : String)
  | array (elems : List JSVal)
  | object (length : JSVal)
  deriving DecidableEq, Repr

/-- The local store cell under the key `'compareItems'`, by what reading and
decoding it gives: no entry (`getItem` returns `null`), the empty text, a
non-empty text `JSON.parse` rejects, or a text decoded to a value. -/
inductive Stored where
  | absent
  | emptyText
  | malformed
  | json (v : Parsed)
  deriving DecidableEq, Repr

/-- The value a collaborator rejects with (what a `catch` receives): `null` or
`undefined`, on which reading `.message` throws, or any other value, with what
its `.message` property reads (`undefined` when it has none). -/
inductive Thrown where
  | nullish
  | value (message : JSVal)
  deriving DecidableEq, Repr

/-- What a remote call resolves with: an array of entries, or anything else
(`Array.isArray` is the only test made on it). -/
inductive Response where
  | list (items : List Entry)
  | other
  deriving DecidableEq, Repr

/-- Outcome of a remote call (`compareAPI.getAll`, `compareAPI.remove`). -/
inductive Outcome where
  | resolved (r : Response)
  | rejected (err : Thrown)
  deriving DecidableEq, Repr

/-- Outcome of one `productsAPI.getById(id)`: resolved with an entry or with
`null` (`none`), or rejected. -/
inductive Lookup where
  | resolved (p : Option Entry)
  | rejected (err : Thrown)
  deriving DecidableEq, Repr

/-- The calls the component makes on its collaborators. `setCompareItems`
carries the value the visible list takes by that call. -/
inductive Effect where
  | setLoading (b : Bool)
  | setCompareItems (items : List Entry)
  | dispatchEvent (name : String)
  | storeRead
  | storeWrite (ids : List JSVal)
  | remoteGetAll
  | remoteRemove (id : JSVal)
  | getById (id : JSVal)
  | consoleError
  | showError (msg : String)
  | success (msg : String)
  deriving DecidableEq, Repr

/-- The component state together with the local store cell. -/
structure State where
  compareItems : List Entry
  loading : Bool
  store : Stored
  deriving DecidableEq, Repr

/-- How an operation ended: it returned, or it threw to its caller. -/
inductive Completion where
  | returned
  | threw
  deriving DecidableEq, Repr

/-- An operation run to its end. -/
structure Run where
  state : State
  trace : List Effect
  completion : Completion
  deriving DecidableEq, Repr

/-! ## The local store -/

/-- The element `JSON.stringify` followed by `JSON.parse` gives back:
`undefined` inside an array is written as `null`. -/
def jsonElem : JSVal → JSVal
  | .undefined => .null
  | v => v

/-- `JSON.parse(localStorage.getItem('compareItems') || '[]')`: `none` when
`JSON.parse` throws. -/
def readStore : Stored → Option Parsed
  | .absent => some (.array [])
  | .emptyText => some (.array [])
  | .malformed => none
  | .json v => some v

/-- `localStorage.setItem('compareItems', JSON.stringify(ids))`. -/
def writeStore (ids : List JSVal) : Stored :=
  .json (.array (ids.map jsonElem))

/-! ## loadCompareItems (lines 25-37) -/

/-- `loadCompareItems`, given the outcome of `compareAPI.getAll()`. -/
def loadCompareItems (getAll : Outcome) (s : State) : Run :=
  match getAll with
  | .resolved r =>
    let items := match r with
      | .list products => products
      | .other => []
    { state := { s with compareItems := items, loading := false }
      trace := [.setLoading true, .remoteGetAll, .setCompareItems items, .setLoading false]
      completion := .returned }
  | .rejected _ =>
    { state := { s with compareItems := [], loading := false }
      trace := [.setLoading true, .remoteGetAll, .consoleError,
                .showError "Failed to load compare items", .setCompareItems [],
                .setLoading false]
      completion := .returned }

/-! ## loadGuestCompareItems (lines 39-68) -/

/-- The `catch` and `finally` blocks of `loadGuestCompareItems`, entered after
the effects `before`: log, notify, clear the loading flag. The visible list is
not touched. -/
def guestLoadFailed (s : State) (before : List Effect) : Run :=
  { state := { s with loading := false }
    trace := before ++ [.consoleError, .showError "Failed to load compare items",
                        .setLoading false]
    completion := .returned }

/-- The early exit `compareIds.length === 0` of `loadGuestCompareItems`. -/
def guestLoadEmpty (s : State) : Run :=
  { state := { s with compareItems := [], loading := false }
    trace := [.setLoading true, .storeRead, .setCompareItems [], .setLoading false,
              .setLoading false]
    completion := .returned }

/-- One element of `productPromises`: the lookup with its `.catch` handler,
which logs and gives `null`. -/
def hydrate (getById : JSVal → Lookup) (id : JSVal) : Option Entry :=
  match getById id with
  | .resolved p => p
  | .rejected _ => none

/-- The console calls made by the `.catch` handlers, one per rejected lookup
(recorded after the lookup calls, in the order of the identifiers). -/
def lookupLogs (getById : JSVal → Lookup) (ids : List JSVal) : List Effect :=
  ids.filterMap fun id =>
    match getById id with
    | .resolved _ => none
    | .rejected _ => some .consoleError

/-- `products.filter(p => p !== null)`. -/
def validProducts (products : List (Option Entry)) : List Entry :=
  products.filterMap fun p => p

/-- `loadGuestCompareItems`, given the outcome of each product lookup. -/
def loadGuestCompareItems (getById : JSVal → Lookup) (s : State) : Run :=
  match readStore s.store with
  | none => guestLoadFailed s [.setLoading true, .storeRead]
  | some .null => guestLoadFailed s [.setLoading true, .storeRead]
  | some (.bool _) => guestLoadFailed s [.setLoading true, .storeRead]
  | some (.num _) => guestLoadFailed s [.setLoading true, .storeRead]
  | some (.str t) =>
    if t.length = 0 then guestLoadEmpty s
    else guestLoadFailed s [.setLoading true, .storeRead]
  | some (.object len) =>
    if len = .num 0 then guestLoadEmpty s
    else guestLoadFailed s [.setLoading true, .storeRead]
  | some (.array compareIds) =>
    if compareIds.length = 0 then guestLoadEmpty s
    else
      let products := compareIds.map (hydrate getById)
      let valid := validProducts products
      { state := { s with compareItems := valid, loading := false }
        trace := [.setLoading true, .storeRead] ++ compareIds.map .getById
                 ++ lookupLogs getById compareIds
                 ++ [.setCompareItems valid, .setLoading false]
        completion := .returned }

/-! ## removeFromCompare (lines 70-115) -/

/-- The optimistic update `items.filter(item => (item._id || item.id) !== id)`. -/
def optimistic (id : JSVal) (items : List Entry) : List Entry :=
  items.filter fun item => item.itemId != id

/-- The test of the `catch` block on `errorMessage = err.message || ''`:
`none` when evaluating it throws (`err` is `null` or `undefined`, or the
message is a truthy value without an `includes` method), else whether the
message names an absent item or an empty list. -/
def benign : Thrown → Option Bool
  | .nullish => none
  | .value message =>
    match message.or (.str "") with
    | .str errorMessage =>
      some (includes errorMessage "not found" || includes errorMessage "empty"
            || includes errorMessage "404")
    | _ => none

/-- `removeFromCompare(id)`, given the session mode and the outcome of
`compareAPI.remove(id)` (used in an authenticated session only). The snapshot
`previousItems` is the visible list of the render the handler belongs to. -/
def removeFromCompare (isAuthenticated : Bool) (remove : Outcome) (id : JSVal)
    (s : State) : Run :=
  let previousItems := s.compareItems
  let filtered := optimistic id s.compareItems
  let s1 := { s with compareItems := filtered }
  let start : List Effect := [.setCompareItems filtered, .dispatchEvent "compareUpdated"]
  if !isAuthenticated then
    match readStore s.store with
    | some (.array compareIds) =>
      let updatedIds := compareIds.filter fun itemId => itemId != id
      { state := { s1 with store := writeStore updatedIds }
        trace := start ++ [.storeRead, .storeWrite updatedIds,
                           .success "Removed from compare"]
        completion := .returned }
    | _ =>
      { state := s1, trace := start ++ [.storeRead], completion := .threw }
  else
    match remove with
    | .resolved r =>
      let items := match r with
        | .list result => result
        | .other => filtered
      let sets : List Effect := match r with
        | .list result => [.setCompareItems result]
        | .other => []
      { state := { s1 with compareItems := items }
        trace := start ++ [.remoteRemove id] ++ sets ++ [.success "Removed from compare"]
        completion := .returned }
    | .rejected err =>
      match benign err with
      | none =>
        { state := s1
          trace := start ++ [.remoteRemove id, .consoleError]
          completion := .threw }
      | some true =>
        { state := s1
          trace := start ++ [.remoteRemove id, .consoleError,
                             .success "Removed from compare"]
          completion := .returned }
      | some false =>
        { state := { s1 with compareItems := previousItems }
          trace := start ++ [.remoteRemove id, .consoleError,
                             .setCompareItems previousItems,
                             .showError "Failed to remove from compare"]
          completion := .returned }

/-! ## Reading a trace -/

/-- The failure notifications of a trace, in order. -/
def errorsOf (t : List Effect) : List String :=
  t.filterMap fun e =>
    match e with
    | .showError m => some m
    | _ => none

/-- The success notifications of a trace, in order. -/
def successesOf (t : List Effect) : List String :=
  t.filterMap fun e =>
    match e with
    | .success m => some m
    | _ => none

/-- The events published on the event bus, in order. -/
def eventsOf (t : List Effect) : List String :=
  t.filterMap fun e =>
    match e with
    | .dispatchEvent n => some n
    | _ => none

/-- The identifiers the remote remove operation was called with, in order. -/
def remoteRemovesOf (t : List Effect) : List JSVal :=
  t.filterMap fun e =>
    match e with
    | .remoteRemove i => some i
    | _ => none

/-- The lists written to the local store, in order. -/
def storeWritesOf (t : List Effect) : List (List JSVal) :=
  t.filterMap fun e =>
    match e with
    | .storeWrite ids => some ids
    | _ => none

/-- The values the visible list took, in order. -/
def listChangesOf (t : List Effect) : List (List Entry) :=
  t.filterMap fun e =>
    match e with
    | .setCompareItems items => some items
    | _ => none

/-! ## Sample data -/

/-- A server-shaped entry, identified by `_id`. -/
def entryA : Entry := { _id := .str "a", id := .undefined, details := 1 }

/-- A locally hydrated entry, identified by `id`. -/
def entryB : Entry := { _id := .undefined, id := .str "b", details := 2 }

/-- A view showing `[entryA, entryB]` over an empty store. -/
def viewAB : State := { compareItems := [entryA, entryB], loading := false, store := .absent }

/-- A lookup service that knows the products `"a"` and `"b"` and fails on
everything else. -/
def sampleLookup : JSVal → Lookup
  | .str "a" => .resolved (some entryA)
  | .str "b" => .resolved (some entryB)
  | _ => .rejected (.value (.str "Product not found"))

/-- An entry that carries both identifier fields, with different values. -/
def entryBoth : Entry := { _id := .str "a", id := .str "b", details := 3 }

/-- The identifiers the product lookup was called with, in order. -/
def lookupsOf (t : List Effect) : List JSVal :=
  t.filterMap fun e =>
    match e with
    | .getById i => some i
    | _ => none

/-! ## Sequences of operations -/

/-- The identifiers of a list of entries, as the removal filter reads them. -/
def identifiers (L : List Entry) : List JSVal :=
  L.map Entry.itemId

/-- One thing that happens to the mounted component: a load run by the effect
(lines 16-23), a removal asked by the user, or the store cell being rewritten
from outside the component (the pages that add to the comparison list). -/
inductive Action where
  | load (getAll : Outcome)
  | loadGuest (getById : JSVal → Lookup)
  | remove (isAuthenticated : Bool) (outcome : Outcome) (id : JSVal)
  | storeSet (content : Stored)

/-- The run of one action. -/
def Action.run : Action → State → Run
  | .load getAll, s => loadCompareItems getAll s
  | .loadGuest getById, s => loadGuestCompareItems getById s
  | .remove isAuthenticated outcome id, s => removeFromCompare isAuthenticated outcome id s
  | .storeSet content, s =>
    { state := { s with store := content }, trace := [], completion := .returned }

/-- The runs of a sequence of actions, one after the other: the final state and
the whole trace. -/
def runAll : List Action → State → State × List Effect
  | [], s => (s, [])
  | a :: rest, s =>
    ((runAll rest (a.run s).state).1, (a.run s).trace ++ (runAll rest (a.run s).state).2)

/-- The state of the component when it mounts (lines 13-14), over a store. -/
def mounted (store : Stored) : State :=
  { compareItems := [], loading := true, store := store }

/-- A remote outcome supplies distinct identifiers: the list it resolves with,
if any, has pairwise distinct identifiers. -/
def Outcome.distinct : Outcome → Prop
  | .resolved (.list R) => (identifiers R).Nodup
  | _ => True

/-- A lookup service answers with the product asked for: an entry it resolves
with carries the requested identifier. -/
def lookupFaithful (getById : JSVal → Lookup) : Prop :=
  ∀ x p, getById x = .resolved (some p) → p.itemId = x

/-- A store cell supplies distinct identifiers: when it decodes to a list, the
list has pairwise distinct elements (none of them `undefined`, which no JSON
text holds). -/
def storeDistinct (content : Stored) : Prop :=
  ∀ ids, readStore content = some (.array ids) → ids.Nodup ∧ JSVal.undefined ∉ ids

/-- The collaborators of an action supply distinct identifiers. -/
def Action.wellBehaved : Action → Prop
  | .load getAll => getAll.distinct
  | .loadGuest getById => lookupFaithful getById
  | .remove _ outcome _ => outcome.distinct
  | .storeSet content => storeDistinct content

/-- The list a guest load sets, by the content of the store: `none` when the
load ends in its `catch` block, which sets no list. -/
def guestListSet (getById : JSVal → Lookup) (content : Stored) : Option (List Entry) :=
  match readStore content with
  | some (.array compareIds) => some (compareIds.filterMap (hydrate getById))
  | some (.str t) => if t.length = 0 then some [] else none
  | some (.object len) => if len = .num 0 then some [] else none
  | _ => none

end Compare

/-! # Reset-password page (`src/pages/ResetPassword.jsx`) -/

namespace ResetPassword

open Compare (JSVal Thrown)

/-- The JavaScript `s.length`: the number of UTF-16 code units of `s`. -/
def jsLength (s : String) : Nat :=
  (s.data.map fun c => if c.toNat < 65536 then 1 else 2).sum

/-- The `status` state: `{ type, message }`. -/
structure Status where
  type : String
  message : JSVal
  deriving DecidableEq, Repr

/-- The component state the submit handler reads and writes. `token` is
`searchParams.get('token')`, `none` for `null`. -/
structure Form where
  token : Option String
  newPassword : String
  confirmPassword : String
  status : Status
  isSubmitting : Bool
  deriving DecidableEq, Repr

/-- The calls `handleSubmit` makes. -/
inductive Effect where
  | preventDefault
  | setStatus (status : Status)
  | setIsSubmitting (b : Bool)
  | resetPassword (token newPassword : String)
  | setNewPassword (v : String)
  | setConfirmPassword (v : String)
  | setTimeout (ms : Nat)
  deriving DecidableEq, Repr

/-- Outcome of `authAPI.resetPassword`. -/
inductive ApiOutcome where
  | resolved
  | rejected (error : Thrown)
  deriving DecidableEq, Repr

/-- `error?.message || 'Unable to reset password at this time.'`. -/
def failureMessage : Thrown → JSVal
  | .nullish => JSVal.undefined.or (.str "Unable to reset password at this time.")
  | .value message => message.or (.str "Unable to reset password at this time.")

/-- `handleSubmit` (lines 26-65), given the outcome of `authAPI.resetPassword`
(awaited only when the three checks pass): the final state and the trace. -/
def handleSubmit (api : ApiOutcome) (f : Form) : Form × List Effect :=
  match f.token with
  | none =>
    ({ f with status := ⟨"error", .str "Missing reset token. Please request a new link."⟩ },
     [.preventDefault,
      .setStatus ⟨"error", .str "Missing reset token. Please request a new link."⟩])
  | some token =>
    if token = "" then
      ({ f with status := ⟨"error", .str "Missing reset token. Please request a new link."⟩ },
       [.preventDefault,
        .setStatus ⟨"error", .str "Missing reset token. Please request a new link."⟩])
    else if jsLength f.newPassword < 8 then
      ({ f with status := ⟨"error", .str "Password must be at least 8 characters."⟩ },
       [.preventDefault, .setStatus ⟨"error", .str "Password must be at least 8 characters."⟩])
    else if f.newPassword ≠ f.confirmPassword then
      ({ f with status := ⟨"error", .str "Passwords do not match."⟩ },
       [.preventDefault, .setStatus ⟨"error", .str "Passwords do not match."⟩])
    else
      match api with
      | .resolved =>
        ({ f with
            status := ⟨"success", .str "Password reset successful. Redirecting to home…"⟩
            newPassword := ""
            confirmPassword := ""
            isSubmitting := false },
         [.preventDefault, .setIsSubmitting true, .resetPassword token f.newPassword,
          .setStatus ⟨"success", .str "Password reset successful. Redirecting to home…"⟩,
          .setNewPassword "", .setConfirmPassword "", .setTimeout 2000,
          .setIsSubmitting false])
      | .rejected error =>
        ({ f with status := ⟨"error", failureMessage error⟩, isSubmitting := false },
         [.preventDefault, .setIsSubmitting true, .resetPassword token f.newPassword,
          .setStatus ⟨"error", failureMessage error⟩, .setIsSubmitting false])

/-- The calls of `authAPI.resetPassword` in a trace, with their arguments. -/
def callsOf (t : List Effect) : List (String × String) :=
  t.filterMap fun e =>
    match e with
    | .resetPassword token newPassword => some (token, newPassword)
    | _ => none

/-- A form as the page shows it before the first submit. -/
def blank (token : Option String) (newPassword confirmPassword : String) : Form :=
  { token := token, newPassword := newPassword, confirmPassword := confirmPassword,
    status := ⟨"", .str ""⟩, isSubmitting := false }

end ResetPassword

/-! # Admin dashboard, mobile layout (`src/pages/Admin/AdminDashboard.mobile.jsx`) -/

namespace AdminDashboard

/-- A child entry of a menu item: `{ label, path }`. -/
structure Child where
  label : String
  path : String
  deriving DecidableEq, Repr

/-- A menu item. `exact` is `false` when the item has no `exact` field;
`children` is empty when it has no `children` field. Icons and badges are left
out. -/
structure Item where
  id : String
  label : String
  path : String
  exact : Bool
  children : List Child
  deriving DecidableEq, Repr

/-- A section of the menu. -/
structure Section where
  id : String
  label : String
  priority : Nat
  items : List Item
  deriving DecidableEq, Repr

/-- The table `menuSections` (lines 41-193). -/
def menuSections : List Section :=
  [ { id := "core", label := "Core", priority := 1, items :=
      [ { id := "overview", label := "Dashboard", path := "/admin/dashboard",
          exact := true, children := [] },
        { id := "orders", label := "Orders", path := "/admin/orders",
          exact := false, children := [] } ] },
    { id := "catalog", label := "Catalog Management", priority := 2, items :=
      [ { id := "products", label := "Products", path := "/admin/products", exact := false,
          children := [ { label := "All Products", path := "/admin/products" },
                        { label := "Add Product", path := "/admin/products/add" } ] },
        { id := "categories", label := "Categories", path := "/admin/categories",
          exact := false, children := [] },
        { id := "inventory", label := "Inventory", path := "/admin/inventory",
          exact := false, children := [] } ] },
    { id := "customers", label := "Customer Management", priority := 3, items :=
      [ { id := "customers", label := "Customers", path := "/admin/customers",
          exact := false, children := [] },
        { id := "queries", label := "Customer Queries", path := "/admin/queries",
          exact := false, children := [] },
        { id := "returns", label := "Returns & Refunds", path := "/admin/returns",
          exact := false, children := [] } ] },
    { id := "marketing", label := "Marketing & Promotions", priority := 4, items :=
      [ { id := "discounts", label := "Discounts & Promotions", path := "/admin/discounts",
          exact := false, children := [] },
        { id := "coupons", label := "Coupon Codes", path := "/admin/coupons",
          exact := false, children := [] },
        { id := "coins", label := "Coins & Rewards", path := "/admin/coins",
          exact := false, children := [] },
        { id := "banners", label := "Banners & Sliders", path := "/admin/banners",
          exact := false, children := [] },
        { id := "newsletter", label := "Newsletter", path := "/admin/newsletter",
          exact := false, children := [] } ] },
    { id := "content", label := "Content & Communication", priority := 5, items :=
      [ { id := "content", label := "Home Page Content", path := "/admin/content",
          exact := false, children := [] },
        { id := "email-templates", label := "Email Templates",
          path := "/admin/email-templates", exact := false, children := [] } ] },
    { id := "system", label := "System Settings", priority := 6, items :=
      [ { id := "settings", label := "Settings", path := "/admin/settings",
          exact := false, children := [] } ] } ]

/-- The JavaScript `s.startsWith(pre)`. -/
def startsWith (s pre : String) : Bool :=
  pre.data.isPrefixOf s.data

/-- The inner loop of `getCurrentPageTitle` over `item.children`. -/
def titleInChildren (currentPath : String) : List Child → Option String
  | [] => none
  | child :: rest =>
    if child.path = currentPath then some child.label
    else titleInChildren currentPath rest

/-- The loop of `getCurrentPageTitle` over `section.items`: `none` when the
loop ends without a `return`. -/
def titleInItems (currentPath : String) : List Item → Option String
  | [] => none
  | item :: rest =>
    if item.path = currentPath || (startsWith currentPath item.path && !item.exact) then
      some item.label
    else
      match titleInChildren currentPath item.children with
      | some label => some label
      | none => titleInItems currentPath rest

/-- The outer loop of `getCurrentPageTitle` over the sections. -/
def titleInSections (currentPath : String) : List Section → Option String
  | [] => none
  | sec :: rest =>
    match titleInItems currentPath sec.items with
    | some label => some label
    | none => titleInSections currentPath rest

/-- `getCurrentPageTitle` (lines 305-322) at `location.pathname`. -/
def getCurrentPageTitle (pathname : String) : String :=
  match titleInSections pathname menuSections with
  | some label => label
  | none => "Dashboard"

/-! ## Swipe to close (lines 218-261) -/

/-- The drawer as the touch handlers see it: the `drawerOpen` state, the three
refs, and the two inline styles they write (`transition` is `'none'` or `''`;
`transform` is `translateX(d px)` or `''`). Positions are whole pixels. -/
structure Drawer where
  drawerOpen : Bool
  startX : Int
  currentX : Int
  isDragging : Bool
  transitionNone : Bool
  transform : Option Int
  deriving DecidableEq, Repr

/-- A touch event on the drawer, with `e.touches[0].clientX` where it is read. -/
inductive Touch where
  | touchstart (clientX : Int)
  | touchmove (clientX : Int)
  | touchend
  deriving DecidableEq, Repr

/-- `handleTouchStart`. -/
def handleTouchStart (clientX : Int) (d : Drawer) : Drawer :=
  if !d.drawerOpen then d
  else { d with startX := clientX, isDragging := true, transitionNone := true }

/-- `handleTouchMove`. -/
def handleTouchMove (clientX : Int) (d : Drawer) : Drawer :=
  if !d.isDragging || !d.drawerOpen then d
  else
    let diff := clientX - d.startX
    if diff < 0 then { d with currentX := clientX, transform := some diff }
    else { d with currentX := clientX }

/-- `handleTouchEnd`. -/
def handleTouchEnd (d : Drawer) : Drawer :=
  if !d.isDragging then d
  else
    let diff := d.currentX - d.startX
    if diff < -100 then { d with isDragging := false, transitionNone := false, drawerOpen := false }
    else { d with isDragging := false, transitionNone := false, transform := none }

/-- The handler registered for each touch event. -/
def handleTouch : Touch → Drawer → Drawer
  | .touchstart x, d => handleTouchStart x d
  | .touchmove x, d => handleTouchMove x d
  | .touchend, d => handleTouchEnd d

/-- A sequence of touch events, handled in order. -/
def handleTouches (events : List Touch) (d : Drawer) : Drawer :=
  events.foldl (fun acc e => handleTouch e acc) d

/-- The drawer just after it was opened for the first time: the refs hold their
initial values (lines 34-36). -/
def opened : Drawer :=
  { drawerOpen := true, startX := 0, currentX := 0, isDragging := false,
    transitionNone := false, transform := none }

end AdminDashboard

/-! # Admin orders page (`src/pages/Admin/Orders.jsx`) -/

namespace Orders

open Compare (JSVal includes)

/-- An order as the search filter reads it: the `customer` field (`undefined`
when the record lacks it) and `id`, standing for the rest of the record. -/
structure Order where
  customer : JSVal
  id : Nat
  deriving DecidableEq, Repr

/-- The callback of the filter (lines 39-42) on one order, given the builtin
`String.prototype.toLowerCase` as `toLowerCase`: `none` when it throws, which
it does when `order.customer` is not a string (it is `undefined` or `null`, or
a value without a `toLowerCase` method). -/
def keeps (toLowerCase : String → String) (searchQuery : String) (order : Order) :
    Option Bool :=
  if searchQuery = "" then some true
  else
    match order.customer with
    | .str customer => some (includes (toLowerCase customer) (toLowerCase searchQuery))
    | _ => none

/-- The expression `orders.filter(order => ...)` of lines 39-42: `none` when
the callback throws on an order. -/
def filteredOrders (toLowerCase : String → String) (searchQuery : String) :
    List Order → Option (List Order)
  | [] => some []
  | order :: rest =>
    match keeps toLowerCase searchQuery order with
    | none => none
    | some keep =>
      match filteredOrders toLowerCase searchQuery rest with
      | none => none
      | some kept => some (if keep then order :: kept else kept)

/-- Lower-casing of the ASCII letters, the part of `toLowerCase` used for the
sample data. -/
def asciiLower (s : String) : String :=
  ⟨s.data.map Char.toLower⟩

end Orders

namespace Compare

/-! ## Lemmas on the building blocks -/

theorem optimistic_eq_filter (id : JSVal) (L : List Entry) :
    optimistic id L = L.filter (fun item => decide (item.itemId ≠ id)) := by
  unfold optimistic
  congr 1
  funext item
  by_cases h : item.itemId = id <;> simp [h]

theorem mem_optimistic (id : JSVal) (L : List Entry) (item : Entry) :
    item ∈ optimistic id L ↔ item ∈ L ∧ item.itemId ≠ id := by
  simp [optimistic]

theorem optimistic_sublist (id : JSVal) (L : List Entry) :
    (optimistic id L).Sublist L := by
  unfold optimistic
  exact List.filter_sublist L

theorem includes_empty_left (pat : String) (h : pat ≠ "") : includes "" pat = false := by
  have hd : pat.data ≠ [] := by
    intro h0
    apply h
    cases pat
    simp_all
  unfold includes
  cases hp : pat.data with
  | nil => exact absurd hp hd
  | cons c cs => rfl

theorem map_jsonElem_of_defined (ids : List JSVal) (h : JSVal.undefined ∉ ids) :
    ids.map jsonElem = ids := by
  induction ids with
  | nil => rfl
  | cons x xs ih =>
    have hx : x ≠ JSVal.undefined := fun e => h (by simp [e])
    have hxs : JSVal.undefined ∉ xs := fun m => h (List.mem_cons_of_mem _ m)
    have e : jsonElem x = x := by
      cases x <;> first | rfl | exact absurd rfl hx
    simp [e, ih hxs]

theorem validProducts_map_hydrate (getById : JSVal → Lookup) (ids : List JSVal) :
    validProducts (ids.map (hydrate getById)) = ids.filterMap (hydrate getById) := by
  unfold validProducts
  rw [List.filterMap_map]
  rfl

theorem errorsOf_append (a b : List Effect) : errorsOf (a ++ b) = errorsOf a ++ errorsOf b := by
  simp [errorsOf]

theorem errorsOf_getById (ids : List JSVal) : errorsOf (ids.map .getById) = [] := by
  induction ids with
  | nil => rfl
  | cons x xs ih =>
    rw [List.map_cons]
    exact ih

theorem errorsOf_lookupLogs (getById : JSVal → Lookup) (ids : List JSVal) :
    errorsOf (lookupLogs getById ids) = [] := by
  induction ids with
  | nil => rfl
  | cons x xs ih =>
    have step : lookupLogs getById (x :: xs) = lookupLogs getById xs
        ∨ lookupLogs getById (x :: xs) = .consoleError :: lookupLogs getById xs := by
      unfold lookupLogs
      cases hx : getById x with
      | resolved p => left; simp [List.filterMap_cons, hx]
      | rejected e => right; simp [List.filterMap_cons, hx]
    rcases step with e | e
    · rw [e]; exact ih
    · rw [e]; exact ih

theorem guest_load_visible (getById : JSVal → Lookup) (s : State) (ids : List JSVal)
    (h : readStore s.store = some (.array ids)) :
    (loadGuestCompareItems getById s).state.compareItems
      = ids.filterMap (hydrate getById) := by
  unfold loadGuestCompareItems
  rw [h]
  by_cases h0 : ids.length = 0
  · have : ids = [] := List.length_eq_zero.mp h0
    subst this
    simp [guestLoadEmpty]
  · simp only [h0, if_false]
    exact validProducts_map_hydrate getById ids

theorem filterMap_hydrate_forall₂ (getById : JSVal → Lookup) (ids : List JSVal)
    (h : ∀ x ∈ ids, ∃ p, getById x = .resolved (some p)) :
    List.Forall₂ (fun x p => getById x = .resolved (some p)) ids
      (ids.filterMap (hydrate getById)) := by
  induction ids with
  | nil => exact List.Forall₂.nil
  | cons x xs ih =>
    obtain ⟨p, hp⟩ := h x (List.mem_cons_self x xs)
    have hx : hydrate getById x = some p := by simp [hydrate, hp]
    rw [List.filterMap_cons_some hx]
    exact List.Forall₂.cons hp (ih fun y hy => h y (List.mem_cons_of_mem x hy))

/-! ## removeFromCompare: failures of the remote call -/

/-- C1, rollback on genuine failure. In an authenticated session, when
`compareAPI.remove` rejects with an error that has no message, or whose message
is a string containing none of "not found", "empty" and "404",
`removeFromCompare` returns with the visible list exactly as it was before the
call, one failure notification 'Failed to remove from compare' and no success
notification. -/
theorem remove_genuine_failure_rolls_back (s : State) (id message : JSVal)
    (h : message = .undefined ∨ ∃ msg, message = .str msg ∧
      includes msg "not found" = false ∧ includes msg "empty" = false ∧
      includes msg "404" = false) :
    (removeFromCompare true (.rejected (.value message)) id s).state.compareItems
        = s.compareItems ∧
    errorsOf (removeFromCompare true (.rejected (.value message)) id s).trace
        = ["Failed to remove from compare"] ∧
    successesOf (removeFromCompare true (.rejected (.value message)) id s).trace = [] ∧
    (removeFromCompare true (.rejected (.value message)) id s).completion = .returned := by
  have hb : benign (.value message) = some false := by
    rcases h with h | ⟨msg, h, h1, h2, h3⟩
    · subst h
      decide
    · subst h
      by_cases he : msg = ""
      · subst he
        decide
      · simp [benign, JSVal.or, JSVal.truthy, he, h1, h2, h3]
  simp [removeFromCompare, hb, errorsOf, successesOf]

theorem remove_genuine_failure_rolls_back_witness :
    (removeFromCompare true (.rejected (.value (.str "server unavailable"))) (.str "b")
        viewAB).state.compareItems = [entryA, entryB] ∧
    errorsOf (removeFromCompare true (.rejected (.value (.str "server unavailable")))
        (.str "b") viewAB).trace = ["Failed to remove from compare"] ∧
    successesOf (removeFromCompare true (.rejected (.value (.str "server unavailable")))
        (.str "b") viewAB).trace = [] ∧
    (removeFromCompare true (.rejected (.value (.str "server unavailable"))) (.str "b")
        viewAB).completion = .returned :=
  remove_genuine_failure_rolls_back viewAB (.str "b") (.str "server unavailable")
    (Or.inr ⟨"server unavailable", rfl, by decide, by decide, by decide⟩)

/-- C2, benign failure. In an authenticated session, when `compareAPI.remove`
rejects with an error whose message is a string containing "not found", "empty"
or "404", `removeFromCompare` returns with the visible list equal to the prior
list without the entries whose identifier (`_id || id`) is `id`, in their
original order; there is no rollback, one success notification and no failure
notification. -/
theorem remove_benign_failure_keeps_removal (s : State) (id : JSVal) (msg : String)
    (h : includes msg "not found" = true ∨ includes msg "empty" = true ∨
      includes msg "404" = true) :
    (removeFromCompare true (.rejected (.value (.str msg))) id s).state.compareItems
        = s.compareItems.filter (fun item => decide (item.itemId ≠ id)) ∧
    successesOf (removeFromCompare true (.rejected (.value (.str msg))) id s).trace
        = ["Removed from compare"] ∧
    errorsOf (removeFromCompare true (.rejected (.value (.str msg))) id s).trace = [] ∧
    (removeFromCompare true (.rejected (.value (.str msg))) id s).completion = .returned := by
  have he : msg ≠ "" := by
    intro e
    subst e
    rcases h with h | h | h
    · exact absurd h (by decide)
    · exact absurd h (by decide)
    · exact absurd h (by decide)
  have hb : benign (.value (.str msg)) = some true := by
    simp only [benign, JSVal.or, JSVal.truthy]
    rcases h with h | h | h <;> simp [he, h]
  rw [← optimistic_eq_filter]
  simp [removeFromCompare, hb, errorsOf, successesOf]

theorem remove_benign_failure_keeps_removal_witness :
    (removeFromCompare true (.rejected (.value (.str "Product not found in compare list")))
        (.str "b") viewAB).state.compareItems
        = [entryA, entryB].filter (fun item => decide (item.itemId ≠ .str "b")) ∧
    successesOf (removeFromCompare true
        (.rejected (.value (.str "Product not found in compare list")))
        (.str "b") viewAB).trace = ["Removed from compare"] ∧
    errorsOf (removeFromCompare true
        (.rejected (.value (.str "Product not found in compare list")))
        (.str "b") viewAB).trace = [] ∧
    (removeFromCompare true (.rejected (.value (.str "Product not found in compare list")))
        (.str "b") viewAB).completion = .returned :=
  remove_benign_failure_keeps_removal viewAB (.str "b") "Product not found in compare list"
    (Or.inl (by decide))

/-! ## removeFromCompare: the optimistic step -/

/-- C3, optimistic removal. In either session mode and whatever the remote
call gives, the trace of `removeFromCompare` starts with the state change that
sets the visible list to the prior list without the entries whose identifier
is `id` (the others kept, in their order), followed at once by the event
'compareUpdated'; that event is published exactly once, and every remote
remove call and every store write comes after it. -/
theorem remove_optimistic_first (isAuthenticated : Bool) (remove : Outcome) (id : JSVal)
    (s : State) :
    ∃ rest : List Effect,
      (removeFromCompare isAuthenticated remove id s).trace
        = .setCompareItems (s.compareItems.filter (fun item => decide (item.itemId ≠ id)))
          :: .dispatchEvent "compareUpdated" :: rest ∧
      eventsOf (removeFromCompare isAuthenticated remove id s).trace = ["compareUpdated"] ∧
      remoteRemovesOf (removeFromCompare isAuthenticated remove id s).trace
        = remoteRemovesOf rest ∧
      storeWritesOf (removeFromCompare isAuthenticated remove id s).trace
        = storeWritesOf rest ∧
      (s.compareItems.filter (fun item => decide (item.itemId ≠ id))).Sublist s.compareItems ∧
      ∀ item, item ∈ s.compareItems.filter (fun item => decide (item.itemId ≠ id))
        ↔ item ∈ s.compareItems ∧ item.itemId ≠ id := by
  rw [← optimistic_eq_filter]
  have tail : (optimistic id s.compareItems).Sublist s.compareItems ∧
      ∀ item, item ∈ optimistic id s.compareItems
        ↔ item ∈ s.compareItems ∧ item.itemId ≠ id :=
    ⟨optimistic_sublist id s.compareItems, mem_optimistic id s.compareItems⟩
  cases isAuthenticated with
  | false =>
    cases hr : readStore s.store with
    | none =>
      exact ⟨[.storeRead], by simp [removeFromCompare, hr], by
        simp [removeFromCompare, hr, eventsOf], by simp [removeFromCompare, hr, remoteRemovesOf],
        by simp [removeFromCompare, hr, storeWritesOf], tail⟩
    | some v =>
      cases v with
      | array ids =>
        exact ⟨[.storeRead, .storeWrite (ids.filter fun itemId => itemId != id),
            .success "Removed from compare"], by simp [removeFromCompare, hr], by
          simp [removeFromCompare, hr, eventsOf], by
          simp [removeFromCompare, hr, remoteRemovesOf],
          by simp [removeFromCompare, hr, storeWritesOf], tail⟩
      | _ =>
        exact ⟨[.storeRead], by simp [removeFromCompare, hr], by
          simp [removeFromCompare, hr, eventsOf], by
          simp [removeFromCompare, hr, remoteRemovesOf],
          by simp [removeFromCompare, hr, storeWritesOf], tail⟩
  | true =>
    cases remove with
    | resolved r =>
      cases r with
      | list result =>
        exact ⟨[.remoteRemove id, .setCompareItems result, .success "Removed from compare"],
          by simp [removeFromCompare], by simp [removeFromCompare, eventsOf],
          by simp [removeFromCompare, remoteRemovesOf],
          by simp [removeFromCompare, storeWritesOf], tail⟩
      | other =>
        exact ⟨[.remoteRemove id, .success "Removed from compare"],
          by simp [removeFromCompare], by simp [removeFromCompare, eventsOf],
          by simp [removeFromCompare, remoteRemovesOf],
          by simp [removeFromCompare, storeWritesOf], tail⟩
    | rejected err =>
      cases hb : benign err with
      | none =>
        exact ⟨[.remoteRemove id, .consoleError],
          by simp [removeFromCompare, hb], by simp [removeFromCompare, hb, eventsOf],
          by simp [removeFromCompare, hb, remoteRemovesOf],
          by simp [removeFromCompare, hb, storeWritesOf], tail⟩
      | some b =>
        cases b with
        | true =>
          exact ⟨[.remoteRemove id, .consoleError, .success "Removed from compare"],
            by simp [removeFromCompare, hb], by simp [removeFromCompare, hb, eventsOf],
            by simp [removeFromCompare, hb, remoteRemovesOf],
            by simp [removeFromCompare, hb, storeWritesOf], tail⟩
        | false =>
          exact ⟨[.remoteRemove id, .consoleError, .setCompareItems s.compareItems,
              .showError "Failed to remove from compare"],
            by simp [removeFromCompare, hb], by simp [removeFromCompare, hb, eventsOf],
            by simp [removeFromCompare, hb, remoteRemovesOf],
            by simp [removeFromCompare, hb, storeWritesOf], tail⟩

/-! ## Guest sessions -/

/-- C4, guest persistence round trip. In a guest session whose store holds the
identifier list `S`, `removeFromCompare id` leaves in the store `S` without the
occurrences of `id` (`id` is no longer in it, the others keep their order); a
following `loadGuestCompareItems` in which every lookup gives an entry makes
the visible list hold, in order, one entry per remaining identifier, each the
entry looked up for that identifier, so none is hydrated from `id`. -/
theorem guest_remove_then_load (L : List Entry) (loading : Bool) (S : List JSVal)
    (remove : Outcome) (id : JSVal) (getById : JSVal → Lookup)
    (hS : JSVal.undefined ∉ S)
    (hl : ∀ x ∈ S, ∃ p, getById x = .resolved (some p)) :
    (removeFromCompare false remove id ⟨L, loading, .json (.array S)⟩).state.store
      = .json (.array (S.filter (fun x => decide (x ≠ id)))) ∧
    id ∉ S.filter (fun x => decide (x ≠ id)) ∧
    (S.filter (fun x => decide (x ≠ id))).Sublist S ∧
    List.Forall₂ (fun x p => getById x = .resolved (some p))
      (S.filter (fun x => decide (x ≠ id)))
      (loadGuestCompareItems getById
        (removeFromCompare false remove id ⟨L, loading, .json (.array S)⟩).state
      ).state.compareItems := by
  have hf : (S.filter fun itemId => itemId != id) = S.filter (fun x => decide (x ≠ id)) := by
    congr 1
    funext x
    by_cases hx : x = id <;> simp [hx]
  have hu : JSVal.undefined ∉ S.filter (fun x => decide (x ≠ id)) :=
    fun m => hS (List.mem_of_mem_filter m)
  have hstore :
      (removeFromCompare false remove id ⟨L, loading, .json (.array S)⟩).state.store
        = .json (.array (S.filter (fun x => decide (x ≠ id)))) := by
    simp only [removeFromCompare, readStore, writeStore, hf, Bool.not_false, if_true]
    rw [map_jsonElem_of_defined _ hu]
  refine ⟨hstore, by simp, List.filter_sublist S, ?_⟩
  rw [guest_load_visible getById _ (S.filter (fun x => decide (x ≠ id)))
    (by rw [hstore]; rfl)]
  exact filterMap_hydrate_forall₂ getById _ fun x hx => hl x (List.mem_of_mem_filter hx)

theorem guest_remove_then_load_witness :
    (removeFromCompare false (.resolved .other) (.str "b")
        ⟨[entryA, entryB], false, .json (.array [.str "a", .str "b"])⟩).state.store
      = .json (.array ([JSVal.str "a", .str "b"].filter (fun x => decide (x ≠ .str "b")))) ∧
    JSVal.str "b" ∉ [JSVal.str "a", .str "b"].filter (fun x => decide (x ≠ .str "b")) ∧
    ([JSVal.str "a", .str "b"].filter (fun x => decide (x ≠ .str "b"))).Sublist
      [.str "a", .str "b"] ∧
    List.Forall₂ (fun x p => sampleLookup x = .resolved (some p))
      ([JSVal.str "a", .str "b"].filter (fun x => decide (x ≠ .str "b")))
      (loadGuestCompareItems sampleLookup
        (removeFromCompare false (.resolved .other) (.str "b")
          ⟨[entryA, entryB], false, .json (.array [.str "a", .str "b"])⟩).state
      ).state.compareItems :=
  guest_remove_then_load [entryA, entryB] false [.str "a", .str "b"] (.resolved .other)
    (.str "b") sampleLookup (by decide) (by
      intro x hx
      simp only [List.mem_cons, List.mem_singleton, List.not_mem_nil, or_false] at hx
      rcases hx with h | h
      · exact ⟨entryA, by rw [h]; rfl⟩
      · exact ⟨entryB, by rw [h]; rfl⟩)

/-- C5, partial-failure tolerance. With the identifier list `S` in the store
and any outcome for each lookup, `loadGuestCompareItems` sets the visible list,
once, to the entries of the identifiers whose lookup gave an entry, in the
order of `S` (a rejected lookup, or one that gives `null`, drops its own entry
only); every identifier is looked up, no failure notification is emitted and
the load returns. -/
theorem guest_load_tolerates_failed_lookups (L : List Entry) (loading : Bool)
    (S : List JSVal) (getById : JSVal → Lookup) :
    (loadGuestCompareItems getById ⟨L, loading, .json (.array S)⟩).state.compareItems
      = S.filterMap (fun x =>
          match getById x with
          | .resolved p => p
          | .rejected _ => none) ∧
    listChangesOf (loadGuestCompareItems getById ⟨L, loading, .json (.array S)⟩).trace
      = [S.filterMap (fun x =>
          match getById x with
          | .resolved p => p
          | .rejected _ => none)] ∧
    (∀ x ∈ S, Effect.getById x ∈
      (loadGuestCompareItems getById ⟨L, loading, .json (.array S)⟩).trace) ∧
    errorsOf (loadGuestCompareItems getById ⟨L, loading, .json (.array S)⟩).trace = [] ∧
    (loadGuestCompareItems getById ⟨L, loading, .json (.array S)⟩).completion
      = .returned := by
  have hh : (fun x =>
          match getById x with
          | .resolved p => p
          | .rejected _ => none) = hydrate getById := by
    funext x
    rfl
  rw [hh]
  refine ⟨guest_load_visible getById _ S rfl, ?_⟩
  have lc_getById : ∀ ids : List JSVal, listChangesOf (ids.map .getById) = [] := by
    intro ids
    induction ids with
    | nil => rfl
    | cons x xs ih => rw [List.map_cons]; exact ih
  have lc_logs : ∀ ids : List JSVal, listChangesOf (lookupLogs getById ids) = [] := by
    intro ids
    induction ids with
    | nil => rfl
    | cons x xs ih =>
      have step : lookupLogs getById (x :: xs) = lookupLogs getById xs
          ∨ lookupLogs getById (x :: xs) = .consoleError :: lookupLogs getById xs := by
        unfold lookupLogs
        cases hx : getById x with
        | resolved p => left; simp [List.filterMap_cons, hx]
        | rejected e => right; simp [List.filterMap_cons, hx]
      rcases step with e | e
      · rw [e]; exact ih
      · rw [e]; exact ih
  have lc_append : ∀ a b : List Effect,
      listChangesOf (a ++ b) = listChangesOf a ++ listChangesOf b := by
    intro a b
    simp [listChangesOf]
  by_cases h0 : S.length = 0
  · have : S = [] := List.length_eq_zero.mp h0
    subst this
    refine ⟨by rfl, by simp, by rfl, by rfl⟩
  · simp only [loadGuestCompareItems, readStore, h0, if_false]
    rw [validProducts_map_hydrate]
    refine ⟨?_, ?_, ?_, trivial⟩
    · rw [lc_append, lc_append, lc_append, lc_getById, lc_logs]
      rfl
    · intro x hx
      simp only [List.mem_append, List.mem_map]
      exact Or.inl (Or.inl (Or.inr ⟨x, hx, rfl⟩))
    · rw [errorsOf_append, errorsOf_append, errorsOf_append, errorsOf_getById,
        errorsOf_lookupLogs]
      rfl

/-- C10, guest removal is local. In a guest session whose store decodes to an
identifier list (an absent entry decodes to the empty list), `removeFromCompare`
calls no remote remove operation, writes the store once, with the list without
`id`, then emits the success notification 'Removed from compare' as its last
effect and returns; it emits no failure notification. -/
theorem guest_remove_is_local (s : State) (remove : Outcome) (id : JSVal) (S : List JSVal)
    (h : readStore s.store = some (.array S)) :
    remoteRemovesOf (removeFromCompare false remove id s).trace = [] ∧
    successesOf (removeFromCompare false remove id s).trace = ["Removed from compare"] ∧
    errorsOf (removeFromCompare false remove id s).trace = [] ∧
    storeWritesOf (removeFromCompare false remove id s).trace
      = [S.filter (fun x => decide (x ≠ id))] ∧
    (∃ before, (removeFromCompare false remove id s).trace
      = before ++ [.storeWrite (S.filter (fun x => decide (x ≠ id))),
                   .success "Removed from compare"]) ∧
    (removeFromCompare false remove id s).completion = .returned := by
  have hf : (S.filter fun itemId => itemId != id) = S.filter (fun x => decide (x ≠ id)) := by
    congr 1
    funext x
    by_cases hx : x = id <;> simp [hx]
  simp only [removeFromCompare, h, hf, Bool.not_false, if_true]
  refine ⟨rfl, rfl, rfl, rfl, ⟨[.setCompareItems (optimistic id s.compareItems),
    .dispatchEvent "compareUpdated", .storeRead], rfl⟩, trivial⟩

theorem guest_remove_is_local_witness :
    remoteRemovesOf (removeFromCompare false (.rejected .nullish) (.str "zz") viewAB).trace
      = [] ∧
    successesOf (removeFromCompare false (.rejected .nullish) (.str "zz") viewAB).trace
      = ["Removed from compare"] ∧
    errorsOf (removeFromCompare false (.rejected .nullish) (.str "zz") viewAB).trace = [] ∧
    storeWritesOf (removeFromCompare false (.rejected .nullish) (.str "zz") viewAB).trace
      = [([] : List JSVal).filter (fun x => decide (x ≠ .str "zz"))] ∧
    (∃ before, (removeFromCompare false (.rejected .nullish) (.str "zz") viewAB).trace
      = before ++ [.storeWrite (([] : List JSVal).filter (fun x => decide (x ≠ .str "zz"))),
                   .success "Removed from compare"]) ∧
    (removeFromCompare false (.rejected .nullish) (.str "zz") viewAB).completion
      = .returned :=
  guest_remove_is_local viewAB (.rejected .nullish) (.str "zz") [] rfl

/-! ## Authenticated sessions: successful remote calls -/

/-- C6, adoption of the authoritative list. In an authenticated session, when
`compareAPI.remove` resolves with a list `R` the final visible list is `R`
itself (the last of the two state changes, after the optimistic one); when it
resolves with anything else the final visible list is the optimistically
filtered prior list. In both cases one success notification and no failure
notification is emitted, and the call returns. -/
theorem remove_adopts_server_list (s : State) (id : JSVal) (R : List Entry) :
    ((removeFromCompare true (.resolved (.list R)) id s).state.compareItems = R ∧
      listChangesOf (removeFromCompare true (.resolved (.list R)) id s).trace
        = [s.compareItems.filter (fun item => decide (item.itemId ≠ id)), R] ∧
      successesOf (removeFromCompare true (.resolved (.list R)) id s).trace
        = ["Removed from compare"] ∧
      errorsOf (removeFromCompare true (.resolved (.list R)) id s).trace = [] ∧
      (removeFromCompare true (.resolved (.list R)) id s).completion = .returned) ∧
    ((removeFromCompare true (.resolved .other) id s).state.compareItems
        = s.compareItems.filter (fun item => decide (item.itemId ≠ id)) ∧
      successesOf (removeFromCompare true (.resolved .other) id s).trace
        = ["Removed from compare"] ∧
      errorsOf (removeFromCompare true (.resolved .other) id s).trace = [] ∧
      (removeFromCompare true (.resolved .other) id s).completion = .returned) := by
  rw [← optimistic_eq_filter]
  exact ⟨⟨rfl, rfl, rfl, rfl, rfl⟩, ⟨rfl, rfl, rfl, rfl⟩⟩

/-- C8, authenticated load result. When `compareAPI.getAll` resolves,
`loadCompareItems` sets the visible list to the response itself when it is a
list and to the empty list otherwise; it emits no notification, clears the
loading flag and returns. -/
theorem load_authenticated_result (s : State) (products : List Entry) :
    ((loadCompareItems (.resolved (.list products)) s).state.compareItems = products ∧
      errorsOf (loadCompareItems (.resolved (.list products)) s).trace = [] ∧
      successesOf (loadCompareItems (.resolved (.list products)) s).trace = [] ∧
      (loadCompareItems (.resolved (.list products)) s).state.loading = false ∧
      (loadCompareItems (.resolved (.list products)) s).completion = .returned) ∧
    ((loadCompareItems (.resolved .other) s).state.compareItems = [] ∧
      errorsOf (loadCompareItems (.resolved .other) s).trace = [] ∧
      successesOf (loadCompareItems (.resolved .other) s).trace = [] ∧
      (loadCompareItems (.resolved .other) s).state.loading = false ∧
      (loadCompareItems (.resolved .other) s).completion = .returned) :=
  ⟨⟨rfl, rfl, rfl, rfl, rfl⟩, ⟨rfl, rfl, rfl, rfl, rfl⟩⟩

/-! ## Failed loads -/

/-- The authenticated half of the load-failure rule: when `compareAPI.getAll`
rejects, the visible list becomes empty and one failure notification is
emitted. -/
theorem load_authenticated_failure_empties (s : State) (err : Thrown) :
    (loadCompareItems (.rejected err) s).state.compareItems = [] ∧
    errorsOf (loadCompareItems (.rejected err) s).trace = ["Failed to load compare items"] ∧
    (loadCompareItems (.rejected err) s).completion = .returned :=
  ⟨rfl, rfl, rfl⟩

/-- C7 at its failing input. A guest load over a store text that `JSON.parse`
rejects, entered with the visible list `[entryA, entryB]` (the list of the
session that has just ended), emits the failure notification once and returns,
but leaves the visible list `[entryA, entryB]`: the `catch` block of
`loadGuestCompareItems` has no `setCompareItems([])`, which the `catch` block of
`loadCompareItems` has. -/
theorem guest_load_failure_keeps_prior_list :
    (loadGuestCompareItems sampleLookup
        ⟨[entryA, entryB], false, .malformed⟩).state.compareItems = [entryA, entryB] ∧
    (loadGuestCompareItems sampleLookup
        ⟨[entryA, entryB], false, .malformed⟩).state.compareItems ≠ [] ∧
    listChangesOf (loadGuestCompareItems sampleLookup
        ⟨[entryA, entryB], false, .malformed⟩).trace = [] ∧
    errorsOf (loadGuestCompareItems sampleLookup
        ⟨[entryA, entryB], false, .malformed⟩).trace = ["Failed to load compare items"] := by
  decide

/-! ## Completion -/

/-- `loadCompareItems` returns on every outcome of the remote call. -/
theorem loadCompareItems_returns (getAll : Outcome) (s : State) :
    (loadCompareItems getAll s).completion = .returned := by
  cases getAll <;> rfl

/-- `loadGuestCompareItems` returns on every store content and every lookup
outcome. -/
theorem loadGuestCompareItems_returns (getById : JSVal → Lookup) (s : State) :
    (loadGuestCompareItems getById s).completion = .returned := by
  unfold loadGuestCompareItems
  cases readStore s.store with
  | none => rfl
  | some v =>
    cases v with
    | null => rfl
    | bool b => rfl
    | num n => rfl
    | str t => dsimp only; split <;> rfl
    | array ids => dsimp only; split <;> rfl
    | object len => dsimp only; split <;> rfl

/-- C9 at its failing inputs. `removeFromCompare` throws to its caller (a) in a
guest session whose store text `JSON.parse` rejects, (b) in a guest session
whose store text decodes to `null`, (c) in an authenticated session when the
remote call rejects with a value whose `message` is the number 404, and (d) when
it rejects with `undefined`. In (a) and (b) the store is read outside any `try`;
in (c) and (d) the error is raised inside the `catch` block. -/
theorem remove_throws_to_caller :
    (removeFromCompare false (.resolved .other) (.str "b")
        ⟨[entryA, entryB], false, .malformed⟩).completion = .threw ∧
    (removeFromCompare false (.resolved .other) (.str "b")
        ⟨[entryA, entryB], false, .json .null⟩).completion = .threw ∧
    (removeFromCompare true (.rejected (.value (.num 404))) (.str "b") viewAB).completion
      = .threw ∧
    (removeFromCompare true (.rejected .nullish) (.str "b") viewAB).completion = .threw := by
  decide

/-! ## Guest loads, summarised -/

theorem listChangesOf_append (a b : List Effect) :
    listChangesOf (a ++ b) = listChangesOf a ++ listChangesOf b := by
  simp [listChangesOf]

theorem listChangesOf_getById (ids : List JSVal) : listChangesOf (ids.map .getById) = [] := by
  induction ids with
  | nil => rfl
  | cons x xs ih =>
    rw [List.map_cons]
    exact ih

theorem lookupLogs_cons (getById : JSVal → Lookup) (x : JSVal) (xs : List JSVal) :
    lookupLogs getById (x :: xs) = lookupLogs getById xs
      ∨ lookupLogs getById (x :: xs) = .consoleError :: lookupLogs getById xs := by
  unfold lookupLogs
  cases hx : getById x with
  | resolved p => left; simp [List.filterMap_cons, hx]
  | rejected e => right; simp [List.filterMap_cons, hx]

theorem listChangesOf_lookupLogs (getById : JSVal → Lookup) (ids : List JSVal) :
    listChangesOf (lookupLogs getById ids) = [] := by
  induction ids with
  | nil => rfl
  | cons x xs ih =>
    rcases lookupLogs_cons getById x xs with e | e
    · rw [e]; exact ih
    · rw [e]; exact ih

theorem lookupsOf_append (a b : List Effect) :
    lookupsOf (a ++ b) = lookupsOf a ++ lookupsOf b := by
  simp [lookupsOf]

theorem guest_load_summary (getById : JSVal → Lookup) (s : State) :
    (loadGuestCompareItems getById s).state
      = { s with compareItems := (guestListSet getById s.store).getD s.compareItems,
                 loading := false } ∧
    listChangesOf (loadGuestCompareItems getById s).trace
      = (guestListSet getById s.store).toList := by
  unfold loadGuestCompareItems guestListSet
  cases hr : readStore s.store with
  | none => exact ⟨rfl, rfl⟩
  | some v =>
    cases v with
    | null => exact ⟨rfl, rfl⟩
    | bool b => exact ⟨rfl, rfl⟩
    | num n => exact ⟨rfl, rfl⟩
    | str t =>
      by_cases h0 : t.length = 0
      · simp only [h0, if_true]; exact ⟨rfl, rfl⟩
      · simp only [h0, if_false]; exact ⟨rfl, rfl⟩
    | object len =>
      by_cases h0 : len = .num 0
      · simp only [h0, if_true]; exact ⟨rfl, rfl⟩
      · simp only [h0, if_false]; exact ⟨rfl, rfl⟩
    | array ids =>
      by_cases h0 : ids.length = 0
      · have : ids = [] := List.length_eq_zero.mp h0
        subst this
        exact ⟨rfl, rfl⟩
      · simp only [h0, if_false]
        rw [validProducts_map_hydrate]
        refine ⟨rfl, ?_⟩
        rw [listChangesOf_append, listChangesOf_append, listChangesOf_append,
          listChangesOf_getById, listChangesOf_lookupLogs]
        rfl

/-- C11, empty short-circuit. In a guest session whose store entry is absent,
empty, or holds the empty list, `loadGuestCompareItems` calls no product
lookup, sets the visible list to the empty list (its only list change), emits
no notification, leaves the loading flag false and returns. -/
theorem guest_load_empty_short_circuit (getById : JSVal → Lookup) (s : State)
    (h : readStore s.store = some (.array [])) :
    lookupsOf (loadGuestCompareItems getById s).trace = [] ∧
    (loadGuestCompareItems getById s).state.compareItems = [] ∧
    listChangesOf (loadGuestCompareItems getById s).trace = [[]] ∧
    errorsOf (loadGuestCompareItems getById s).trace = [] ∧
    successesOf (loadGuestCompareItems getById s).trace = [] ∧
    (loadGuestCompareItems getById s).state.loading = false ∧
    (loadGuestCompareItems getById s).completion = .returned := by
  unfold loadGuestCompareItems
  rw [h]
  exact ⟨rfl, rfl, rfl, rfl, rfl, rfl, rfl⟩

theorem guest_load_empty_short_circuit_witness :
    lookupsOf (loadGuestCompareItems sampleLookup viewAB).trace = [] ∧
    (loadGuestCompareItems sampleLookup viewAB).state.compareItems = [] ∧
    listChangesOf (loadGuestCompareItems sampleLookup viewAB).trace = [[]] ∧
    errorsOf (loadGuestCompareItems sampleLookup viewAB).trace = [] ∧
    successesOf (loadGuestCompareItems sampleLookup viewAB).trace = [] ∧
    (loadGuestCompareItems sampleLookup viewAB).state.loading = false ∧
    (loadGuestCompareItems sampleLookup viewAB).completion = .returned :=
  guest_load_empty_short_circuit sampleLookup viewAB rfl

/-- C12, idempotence of guest hydration. For every store content, every prior
visible list and every fixed assignment of lookup outcomes to identifiers, a
second `loadGuestCompareItems` run right after the first leaves the visible
list the first run left; a load does not change the store. -/
theorem guest_load_idempotent (getById : JSVal → Lookup) (s : State) :
    (loadGuestCompareItems getById (loadGuestCompareItems getById s).state).state.compareItems
      = (loadGuestCompareItems getById s).state.compareItems ∧
    (loadGuestCompareItems getById s).state.store = s.store := by
  have h1 := (guest_load_summary getById s).1
  have h2 := (guest_load_summary getById (loadGuestCompareItems getById s).state).1
  rw [h2, h1]
  refine ⟨?_, rfl⟩
  cases guestListSet getById s.store <;> rfl

/-! ## Uniqueness of identifiers -/

theorem hydrate_some (getById : JSVal → Lookup) (x : JSVal) (p : Entry)
    (h : hydrate getById x = some p) : getById x = .resolved (some p) := by
  unfold hydrate at h
  cases hx : getById x with
  | resolved q =>
    rw [hx] at h
    simp only at h
    rw [h]
  | rejected e =>
    rw [hx] at h
    cases h

theorem identifiers_hydrated_sublist (getById : JSVal → Lookup)
    (hf : lookupFaithful getById) (ids : List JSVal) :
    (identifiers (ids.filterMap (hydrate getById))).Sublist ids := by
  induction ids with
  | nil => exact List.Sublist.slnil
  | cons x xs ih =>
    cases hx : hydrate getById x with
    | none =>
      rw [List.filterMap_cons_none hx]
      exact List.Sublist.cons x ih
    | some p =>
      rw [List.filterMap_cons_some hx]
      have hp : p.itemId = x := hf x p (hydrate_some getById x p hx)
      show (p.itemId :: identifiers (xs.filterMap (hydrate getById))).Sublist (x :: xs)
      rw [hp]
      exact List.Sublist.cons₂ x ih

theorem identifiers_optimistic_sublist (id : JSVal) (L : List Entry) :
    (identifiers (optimistic id L)).Sublist (identifiers L) :=
  (optimistic_sublist id L).map Entry.itemId

theorem guestListSet_distinct (getById : JSVal → Lookup) (content : Stored)
    (hf : lookupFaithful getById) (hc : storeDistinct content) (L : List Entry)
    (h : guestListSet getById content = some L) : (identifiers L).Nodup := by
  unfold guestListSet at h
  cases hr : readStore content with
  | none => rw [hr] at h; cases h
  | some v =>
    rw [hr] at h
    cases v with
    | null => cases h
    | bool b => cases h
    | num n => cases h
    | str t =>
      by_cases h0 : t.length = 0
      · simp only [h0, if_true, Option.some.injEq] at h
        subst h
        exact List.nodup_nil
      · simp only [h0, if_false] at h
        cases h
    | object len =>
      by_cases h0 : len = .num 0
      · simp only [h0, if_true, Option.some.injEq] at h
        subst h
        exact List.nodup_nil
      · simp only [h0, if_false] at h
        cases h
    | array ids =>
      simp only [Option.some.injEq] at h
      subst h
      exact (hc ids hr).1.sublist (identifiers_hydrated_sublist getById hf ids)

theorem storeDistinct_writeStore (ids : List JSVal) (hn : ids.Nodup)
    (hu : JSVal.undefined ∉ ids) : storeDistinct (writeStore ids) := by
  intro ids2 h
  unfold writeStore readStore at h
  simp only [Option.some.injEq, Parsed.array.injEq] at h
  rw [map_jsonElem_of_defined ids hu] at h
  subst h
  exact ⟨hn, hu⟩

theorem remove_keeps_distinct (isAuthenticated : Bool) (outcome : Outcome) (id : JSVal)
    (s : State) (hs : (identifiers s.compareItems).Nodup) (hst : storeDistinct s.store)
    (ho : outcome.distinct) :
    (identifiers (removeFromCompare isAuthenticated outcome id s).state.compareItems).Nodup ∧
    storeDistinct (removeFromCompare isAuthenticated outcome id s).state.store ∧
    ∀ L ∈ listChangesOf (removeFromCompare isAuthenticated outcome id s).trace,
      (identifiers L).Nodup := by
  have hopt : (identifiers (optimistic id s.compareItems)).Nodup :=
    hs.sublist (identifiers_optimistic_sublist id s.compareItems)
  cases isAuthenticated with
  | false =>
    cases hr : readStore s.store with
    | none =>
      simp only [removeFromCompare, hr, Bool.not_false, if_true]
      exact ⟨hopt, hst, by
        intro L hL
        simp [listChangesOf] at hL
        rw [hL]; exact hopt⟩
    | some v =>
      cases v with
      | array ids =>
        simp only [removeFromCompare, hr, Bool.not_false, if_true]
        have hids := hst ids hr
        refine ⟨hopt, storeDistinct_writeStore _ (hids.1.sublist (List.filter_sublist ids))
          (fun m => hids.2 (List.mem_of_mem_filter m)), ?_⟩
        intro L hL
        simp [listChangesOf] at hL
        rw [hL]; exact hopt
      | _ =>
        simp only [removeFromCompare, hr, Bool.not_false, if_true]
        exact ⟨hopt, hst, by
          intro L hL
          simp [listChangesOf] at hL
          rw [hL]; exact hopt⟩
  | true =>
    cases outcome with
    | resolved r =>
      cases r with
      | list R =>
        have hR : (identifiers R).Nodup := ho
        refine ⟨hR, hst, ?_⟩
        intro L hL
        simp [removeFromCompare, listChangesOf] at hL
        rcases hL with hL | hL
        · rw [hL]; exact hopt
        · rw [hL]; exact hR
      | other =>
        refine ⟨hopt, hst, ?_⟩
        intro L hL
        simp [removeFromCompare, listChangesOf] at hL
        rw [hL]; exact hopt
    | rejected err =>
      cases hb : benign err with
      | none =>
        simp only [removeFromCompare, hb, Bool.not_true, Bool.false_eq_true, if_false]
        exact ⟨hopt, hst, by
          intro L hL
          simp [listChangesOf] at hL
          rw [hL]; exact hopt⟩
      | some b =>
        cases b with
        | true =>
          simp only [removeFromCompare, hb, Bool.not_true, Bool.false_eq_true, if_false]
          exact ⟨hopt, hst, by
            intro L hL
            simp [listChangesOf] at hL
            rw [hL]; exact hopt⟩
        | false =>
          simp only [removeFromCompare, hb, Bool.not_true, Bool.false_eq_true, if_false]
          exact ⟨hs, hst, by
            intro L hL
            simp [listChangesOf] at hL
            rcases hL with hL | hL
            · rw [hL]; exact hopt
            · rw [hL]; exact hs⟩

theorem step_keeps_distinct (a : Action) (s : State)
    (hs : (identifiers s.compareItems).Nodup) (hst : storeDistinct s.store)
    (ha : a.wellBehaved) :
    (identifiers (a.run s).state.compareItems).Nodup ∧
    storeDistinct (a.run s).state.store ∧
    ∀ L ∈ listChangesOf (a.run s).trace, (identifiers L).Nodup := by
  cases a with
  | load getAll =>
    cases getAll with
    | resolved r =>
      cases r with
      | list R =>
        have hR : (identifiers R).Nodup := ha
        refine ⟨hR, hst, ?_⟩
        intro L hL
        simp [Action.run, loadCompareItems, listChangesOf] at hL
        rw [hL]; exact hR
      | other =>
        refine ⟨List.nodup_nil, hst, ?_⟩
        intro L hL
        simp [Action.run, loadCompareItems, listChangesOf] at hL
        rw [hL]; exact List.nodup_nil
    | rejected err =>
      refine ⟨List.nodup_nil, hst, ?_⟩
      intro L hL
      simp [Action.run, loadCompareItems, listChangesOf] at hL
      rw [hL]; exact List.nodup_nil
  | loadGuest getById =>
    have hf : lookupFaithful getById := ha
    obtain ⟨h1, h2⟩ := guest_load_summary getById s
    show (identifiers (loadGuestCompareItems getById s).state.compareItems).Nodup ∧
      storeDistinct (loadGuestCompareItems getById s).state.store ∧
      ∀ L ∈ listChangesOf (loadGuestCompareItems getById s).trace, (identifiers L).Nodup
    rw [h1, h2]
    cases hg : guestListSet getById s.store with
    | none =>
      exact ⟨hs, hst, by intro L hL; cases hL⟩
    | some L0 =>
      have hL0 := guestListSet_distinct getById s.store hf hst L0 hg
      refine ⟨hL0, hst, ?_⟩
      intro L hL
      simp at hL
      rw [hL]; exact hL0
  | remove isAuthenticated outcome id =>
    exact remove_keeps_distinct isAuthenticated outcome id s hs hst ha
  | storeSet content =>
    exact ⟨hs, ha, by intro L hL; cases hL⟩

theorem runAll_keeps_distinct (actions : List Action) (s : State)
    (hs : (identifiers s.compareItems).Nodup) (hst : storeDistinct s.store)
    (ha : ∀ a ∈ actions, a.wellBehaved) :
    (identifiers (runAll actions s).1.compareItems).Nodup ∧
    ∀ L ∈ listChangesOf (runAll actions s).2, (identifiers L).Nodup := by
  induction actions generalizing s with
  | nil =>
    exact ⟨hs, by intro L hL; cases hL⟩
  | cons a rest ih =>
    obtain ⟨h1, h2, h3⟩ := step_keeps_distinct a s hs hst (ha a (List.mem_cons_self a rest))
    obtain ⟨i1, i2⟩ := ih (a.run s).state h1 h2 fun b hb => ha b (List.mem_cons_of_mem a hb)
    refine ⟨i1, ?_⟩
    intro L hL
    simp only [runAll, listChangesOf_append, List.mem_append] at hL
    rcases hL with hL | hL
    · exact h3 L hL
    · exact i2 L hL

theorem sampleLookup_faithful : lookupFaithful sampleLookup := by
  intro x p h
  unfold sampleLookup at h
  split at h
  · cases h; rfl
  · cases h; rfl
  · cases h

/-- C13, uniqueness invariant. Start from the mounted component (empty visible
list) over a store whose list, if it decodes to one, has distinct elements, and
run any sequence of loads, guest loads, removals and outside rewrites of the
store in which every collaborator supplies distinct identifiers (lists resolved
by `getAll` and `remove`, store contents, and lookups answering with an entry
that carries the requested identifier). Then the identifiers `_id || id` of the
visible list are pairwise distinct at the end, and so are those of every value
the visible list took on the way (every load result, optimistic filter, adopted
server list and rollback). -/
theorem visible_identifiers_stay_distinct (actions : List Action) (store : Stored)
    (hstore : storeDistinct store) (hactions : ∀ a ∈ actions, a.wellBehaved) :
    (identifiers (runAll actions (mounted store)).1.compareItems).Nodup ∧
    ∀ L ∈ listChangesOf (runAll actions (mounted store)).2, (identifiers L).Nodup :=
  runAll_keeps_distinct actions (mounted store) List.nodup_nil hstore hactions

theorem visible_identifiers_stay_distinct_witness :
    (identifiers (runAll
      [.loadGuest sampleLookup, .remove false (.resolved .other) (.str "b"),
       .load (.resolved (.list [entryA, entryB])),
       .remove true (.rejected (.value (.str "server unavailable"))) (.str "a")]
      (mounted (.json (.array [.str "a", .str "b", .str "c"])))).1.compareItems).Nodup ∧
    ∀ L ∈ listChangesOf (runAll
      [.loadGuest sampleLookup, .remove false (.resolved .other) (.str "b"),
       .load (.resolved (.list [entryA, entryB])),
       .remove true (.rejected (.value (.str "server unavailable"))) (.str "a")]
      (mounted (.json (.array [.str "a", .str "b", .str "c"])))).2,
      (identifiers L).Nodup :=
  visible_identifiers_stay_distinct _ _
    (by
      intro ids h
      simp only [readStore, Option.some.injEq, Parsed.array.injEq] at h
      subst h
      decide)
    (by
      intro a ha
      simp only [List.mem_cons, List.mem_singleton, List.not_mem_nil, or_false] at ha
      rcases ha with h | h | h | h
      · rw [h]; exact sampleLookup_faithful
      · rw [h]; exact True.intro
      · rw [h]
        show (identifiers [entryA, entryB]).Nodup
        decide
      · rw [h]; exact True.intro)

/-! ## The removal filter and the two identifier fields -/

/-- C14 as stated fails. Removing `"b"` from a list holding `entryBoth`, whose
`_id` is `"a"` and whose `id` is `"b"`, keeps that entry: the visible list
still contains an entry whose `id` field equals the removed identifier. -/
theorem optimistic_keeps_entry_matching_on_id_only :
    entryBoth ∈ optimistic (.str "b") [entryA, entryBoth] ∧
    entryBoth.id = .str "b" ∧
    ¬ (∀ item ∈ optimistic (.str "b") [entryA, entryBoth],
        item._id ≠ .str "b" ∧ item.id ≠ .str "b") := by
  decide

/-- C14, amended. After the optimistic step the visible list holds exactly the
entries of the prior list whose identifier `_id || id` differs from `id`, in
their order: it contains no entry whose `_id` is truthy and equals `id`, and no
entry whose `_id` is falsy and whose `id` field equals `id`; it retains every
entry for which neither field equals `id`. -/
theorem optimistic_matches_preferred_identifier (id : JSVal) (L : List Entry) :
    (optimistic id L).Sublist L ∧
    (∀ item, item ∈ optimistic id L ↔ item ∈ L ∧ item.itemId ≠ id) ∧
    (∀ item ∈ optimistic id L, item._id.truthy = true → item._id ≠ id) ∧
    (∀ item ∈ optimistic id L, item._id.truthy = false → item.id ≠ id) ∧
    (∀ item ∈ L, item._id ≠ id → item.id ≠ id → item ∈ optimistic id L) := by
  refine ⟨optimistic_sublist id L, mem_optimistic id L, ?_, ?_, ?_⟩
  · intro item hm ht
    have h := ((mem_optimistic id L item).mp hm).2
    simpa [Entry.itemId, JSVal.or, ht] using h
  · intro item hm ht
    have h := ((mem_optimistic id L item).mp hm).2
    simpa [Entry.itemId, JSVal.or, ht] using h
  · intro item hm h1 h2
    refine (mem_optimistic id L item).mpr ⟨hm, ?_⟩
    unfold Entry.itemId JSVal.or
    split
    · exact h1
    · exact h2

end Compare

/-! # Reset-password page: the validation gate -/

namespace ResetPassword

theorem jsLength_eq_length (s : String) (h : ∀ c ∈ s.data, c.toNat < 65536) :
    jsLength s = s.length := by
  cases s with
  | mk cs =>
    simp only [jsLength, String.length]
    simp only at h
    induction cs with
    | nil => rfl
    | cons c rest ih =>
      have hc : c.toNat < 65536 := h c (List.mem_cons_self c rest)
      have hr := ih fun d hd => h d (List.mem_cons_of_mem c hd)
      simp only [List.map_cons, List.sum_cons, List.length_cons, hc, if_true, hr]
      omega

/-- C15, validation gate of `handleSubmit`. `authAPI.resetPassword` is called
if and only if the token is present and non-empty, the new password has at
least 8 characters (its JavaScript `length`, in UTF-16 code units) and equals
the confirmation; the call is then made once, with that token and password.
Otherwise no call is made and the status becomes an error whose message is, in
this precedence: missing token, too short, mismatch. -/
theorem submit_gate (api : ApiOutcome) (f : Form) :
    (callsOf (handleSubmit api f).2 ≠ [] ↔
      (∃ t, f.token = some t ∧ t ≠ "") ∧ 8 ≤ jsLength f.newPassword ∧
        f.newPassword = f.confirmPassword) ∧
    (∀ t, f.token = some t → t ≠ "" → 8 ≤ jsLength f.newPassword →
      f.newPassword = f.confirmPassword →
      callsOf (handleSubmit api f).2 = [(t, f.newPassword)]) ∧
    (f.token = none ∨ f.token = some "" →
      callsOf (handleSubmit api f).2 = [] ∧
      (handleSubmit api f).1.status
        = ⟨"error", .str "Missing reset token. Please request a new link."⟩) ∧
    (∀ t, f.token = some t → t ≠ "" → jsLength f.newPassword < 8 →
      callsOf (handleSubmit api f).2 = [] ∧
      (handleSubmit api f).1.status
        = ⟨"error", .str "Password must be at least 8 characters."⟩) ∧
    (∀ t, f.token = some t → t ≠ "" → 8 ≤ jsLength f.newPassword →
      f.newPassword ≠ f.confirmPassword →
      callsOf (handleSubmit api f).2 = [] ∧
      (handleSubmit api f).1.status = ⟨"error", .str "Passwords do not match."⟩) := by
  cases ht : f.token with
  | none =>
    refine ⟨?_, ?_, ?_, ?_, ?_⟩
    · simp [handleSubmit, ht, callsOf]
    · intro t h; cases h
    · intro _; simp [handleSubmit, ht, callsOf]
    · intro t h; cases h
    · intro t h; cases h
  | some tok =>
    by_cases he : tok = ""
    · subst he
      refine ⟨?_, ?_, ?_, ?_, ?_⟩
      · simp [handleSubmit, ht, callsOf]
      · intro t h hne
        simp only [Option.some.injEq] at h
        exact absurd h.symm hne
      · intro _; simp [handleSubmit, ht, callsOf]
      · intro t h hne
        simp only [Option.some.injEq] at h
        exact absurd h.symm hne
      · intro t h hne
        simp only [Option.some.injEq] at h
        exact absurd h.symm hne
    · by_cases hl : jsLength f.newPassword < 8
      · refine ⟨?_, ?_, ?_, ?_, ?_⟩
        · simp [handleSubmit, ht, he, hl, callsOf]
        · intro t _ _ h8; omega
        · intro h
          rcases h with h | h
          · cases h
          · simp only [Option.some.injEq] at h
            exact absurd h he
        · intro t _ _ _; simp [handleSubmit, ht, he, hl, callsOf]
        · intro t _ _ h8; omega
      · by_cases hm : f.newPassword = f.confirmPassword
        · have hl2 : ¬ jsLength f.confirmPassword < 8 := hm ▸ hl
          have hcalls : callsOf (handleSubmit api f).2 = [(tok, f.newPassword)] := by
            cases api <;> simp [handleSubmit, ht, he, hl2, hm, callsOf]
          refine ⟨?_, ?_, ?_, ?_, ?_⟩
          · rw [hcalls]
            simp only [ne_eq, List.cons_ne_nil, not_false_eq_true, true_iff]
            exact ⟨⟨tok, rfl, he⟩, by omega, hm⟩
          · intro t h _ _ _
            simp only [Option.some.injEq] at h
            rw [hcalls, h]
          · intro h
            rcases h with h | h
            · cases h
            · simp only [Option.some.injEq] at h
              exact absurd h he
          · intro t _ _ h8; exact absurd h8 hl
          · intro t _ _ _ hne; exact absurd hm hne
        · refine ⟨?_, ?_, ?_, ?_, ?_⟩
          · simp [handleSubmit, ht, he, hl, hm, callsOf]
          · intro t _ _ _ heq; exact absurd heq hm
          · intro h
            rcases h with h | h
            · cases h
            · simp only [Option.some.injEq] at h
              exact absurd h he
          · intro t _ _ h8; exact absurd h8 hl
          · intro t _ _ _ _; simp [handleSubmit, ht, he, hl, hm, callsOf]

end ResetPassword

/-! # Admin dashboard: the page title -/

namespace AdminDashboard

theorem titleInChildren_none (currentPath : String) (children : List Child)
    (h : ∀ child ∈ children, child.path ≠ currentPath) :
    titleInChildren currentPath children = none := by
  induction children with
  | nil => rfl
  | cons child rest ih =>
    have hc : child.path ≠ currentPath := h child (List.mem_cons_self child rest)
    simp only [titleInChildren, hc, if_false]
    exact ih fun c hm => h c (List.mem_cons_of_mem child hm)

theorem titleInItems_none (currentPath : String) (items : List Item)
    (h : ∀ item ∈ items, item.path ≠ currentPath ∧
      (item.exact = true ∨ startsWith currentPath item.path = false) ∧
      ∀ child ∈ item.children, child.path ≠ currentPath) :
    titleInItems currentPath items = none := by
  induction items with
  | nil => rfl
  | cons item rest ih =>
    obtain ⟨h1, h2, h3⟩ := h item (List.mem_cons_self item rest)
    have hcond : (decide (item.path = currentPath)
        || (startsWith currentPath item.path && !item.exact)) = false := by
      rcases h2 with h2 | h2 <;> simp [h1, h2]
    simp only [titleInItems, hcond, Bool.false_eq_true, if_false,
      titleInChildren_none currentPath item.children h3]
    exact ih fun i hm => h i (List.mem_cons_of_mem item hm)

theorem titleInSections_none (currentPath : String) (sections : List Section)
    (h : ∀ sec ∈ sections, ∀ item ∈ sec.items, item.path ≠ currentPath ∧
      (item.exact = true ∨ startsWith currentPath item.path = false) ∧
      ∀ child ∈ item.children, child.path ≠ currentPath) :
    titleInSections currentPath sections = none := by
  induction sections with
  | nil => rfl
  | cons sec rest ih =>
    simp only [titleInSections,
      titleInItems_none currentPath sec.items (h sec (List.mem_cons_self sec rest))]
    exact ih fun s hm => h s (List.mem_cons_of_mem sec hm)

theorem title_of_every_item :
    ∀ sec ∈ menuSections, ∀ item ∈ sec.items, getCurrentPageTitle item.path = item.label := by
  decide

/-- C16 as stated fails. The menu holds the child entries 'Add Product' at
`/admin/products/add` and 'All Products' at `/admin/products`, yet at both
pathnames the title is 'Products', the label of the parent item, whose prefix
test returns before the children are looked at; and `/admin/orders/12`, which
is the path of no entry, gets 'Orders' and not 'Dashboard'. -/
theorem title_of_child_path_is_parent_label :
    (∃ sec ∈ menuSections, ∃ item ∈ sec.items,
      (⟨"Add Product", "/admin/products/add"⟩ : Child) ∈ item.children) ∧
    getCurrentPageTitle "/admin/products/add" = "Products" ∧
    getCurrentPageTitle "/admin/products/add" ≠ "Add Product" ∧
    getCurrentPageTitle "/admin/products" ≠ "All Products" ∧
    (∀ sec ∈ menuSections, ∀ item ∈ sec.items,
      item.path ≠ "/admin/orders/12" ∧ ∀ child ∈ item.children,
        child.path ≠ "/admin/orders/12") ∧
    getCurrentPageTitle "/admin/orders/12" ≠ "Dashboard" := by
  decide

/-- C16, amended. For every top-level item of the admin menu, when the
pathname equals the item's path `getCurrentPageTitle` returns the item's label;
for a pathname that equals the path of no item and of no child entry and does
not start with the path of an item without `exact`, it returns 'Dashboard'. -/
theorem title_of_item_path (pathname : String) :
    (∀ sec ∈ menuSections, ∀ item ∈ sec.items, pathname = item.path →
      getCurrentPageTitle pathname = item.label) ∧
    ((∀ sec ∈ menuSections, ∀ item ∈ sec.items, item.path ≠ pathname ∧
        (item.exact = true ∨ startsWith pathname item.path = false) ∧
        ∀ child ∈ item.children, child.path ≠ pathname) →
      getCurrentPageTitle pathname = "Dashboard") := by
  constructor
  · intro sec hs item hi hp
    rw [hp]
    exact title_of_every_item sec hs item hi
  · intro h
    unfold getCurrentPageTitle
    rw [titleInSections_none pathname menuSections h]

theorem title_of_item_path_witness :
    getCurrentPageTitle "/admin/login" = "Dashboard" :=
  (title_of_item_path "/admin/login").2 (by decide)

/-! # Admin dashboard: swipe to close -/

theorem handleTouchMove_dragging (x0 clientX : Int) (d : Drawer)
    (h : d.drawerOpen = true ∧ d.isDragging = true ∧ d.startX = x0) :
    ((handleTouchMove clientX d).drawerOpen = true ∧
      (handleTouchMove clientX d).isDragging = true ∧
      (handleTouchMove clientX d).startX = x0) ∧
    (handleTouchMove clientX d).currentX = clientX := by
  obtain ⟨h1, h2, h3⟩ := h
  unfold handleTouchMove
  simp only [h1, h2, Bool.not_true, Bool.or_self, Bool.false_eq_true, if_false]
  split <;> exact ⟨⟨rfl, rfl, h3⟩, rfl⟩

theorem handleTouches_moves (x0 : Int) (moves : List Int) (d : Drawer)
    (h : d.drawerOpen = true ∧ d.isDragging = true ∧ d.startX = x0) :
    (handleTouches (moves.map .touchmove) d).drawerOpen = true ∧
    (handleTouches (moves.map .touchmove) d).isDragging = true ∧
    (handleTouches (moves.map .touchmove) d).startX = x0 := by
  induction moves generalizing d with
  | nil => exact h
  | cons x rest ih =>
    exact ih (handleTouchMove x d) (handleTouchMove_dragging x0 x d h).1

/-- The half of the swipe rule that holds: on an open drawer, a gesture with at
least one move event closes the drawer at its end if and only if its last
position is more than 100 px to the left of its start. -/
theorem swipe_with_move_closes_iff (d : Drawer) (hd : d.drawerOpen = true)
    (x0 last : Int) (moves : List Int) :
    (handleTouches (.touchstart x0 :: (moves.map .touchmove ++ [.touchmove last, .touchend]))
        d).drawerOpen = false
      ↔ last - x0 < -100 := by
  have h0 : (handleTouchStart x0 d).drawerOpen = true ∧
      (handleTouchStart x0 d).isDragging = true ∧ (handleTouchStart x0 d).startX = x0 := by
    unfold handleTouchStart
    simp [hd]
  have h1 := handleTouches_moves x0 moves (handleTouchStart x0 d) h0
  obtain ⟨⟨h2, h3, h4⟩, h5⟩ := handleTouchMove_dragging x0 last _ h1
  have e : handleTouches
      (.touchstart x0 :: (moves.map .touchmove ++ [.touchmove last, .touchend])) d
      = handleTouchEnd (handleTouchMove last
          (handleTouches (moves.map .touchmove) (handleTouchStart x0 d))) := by
    simp [handleTouches, handleTouch, List.foldl_append]
  rw [e]
  unfold handleTouchEnd
  simp only [h3, Bool.not_true, Bool.false_eq_true, if_false, h5, h4]
  split
  · rename_i hlt
    simp [hlt]
  · rename_i hlt
    simp [hlt, h2]

/-- C17 at its failing inputs. On the drawer just opened, a gesture that starts
at x = 150 and ends without any move event closes the drawer: `handleTouchEnd`
compares the start with `currentXRef`, which `handleTouchStart` does not reset
and which still holds 0. The same happens after an earlier gesture: a swipe
from 300 to 250 leaves the drawer open, and the tap at x = 400 that follows
closes it, against the position 250 left by the earlier gesture. -/
theorem tap_closes_drawer :
    (handleTouches [.touchstart 150, .touchend] opened).drawerOpen = false ∧
    (handleTouches [.touchstart 300, .touchmove 250, .touchend] opened).drawerOpen = true ∧
    (handleTouches [.touchstart 300, .touchmove 250, .touchend, .touchstart 400, .touchend]
      opened).drawerOpen = false := by
  decide

end AdminDashboard

/-! # Admin orders page: the search filter -/

namespace Orders

open Compare (JSVal includes)

theorem filteredOrders_empty_query (toLowerCase : String → String) (orders : List Order) :
    filteredOrders toLowerCase "" orders = some orders := by
  induction orders with
  | nil => rfl
  | cons order rest ih => simp [filteredOrders, keeps, ih]

theorem filteredOrders_strings (toLowerCase : String → String) (searchQuery : String)
    (hq : searchQuery ≠ "") (orders : List Order)
    (h : ∀ order ∈ orders, ∃ customer, order.customer = .str customer) :
    filteredOrders toLowerCase searchQuery orders
      = some (orders.filter fun order =>
          match order.customer with
          | .str customer => includes (toLowerCase customer) (toLowerCase searchQuery)
          | _ => false) := by
  induction orders with
  | nil => rfl
  | cons order rest ih =>
    obtain ⟨customer, hc⟩ := h order (List.mem_cons_self order rest)
    have hr := ih fun o hm => h o (List.mem_cons_of_mem order hm)
    simp only [filteredOrders, keeps, hq, if_false, hc, hr, List.filter_cons]

theorem filteredOrders_throws (toLowerCase : String → String) (searchQuery : String)
    (hq : searchQuery ≠ "") (orders : List Order)
    (h : ∃ order ∈ orders, ∀ customer, order.customer ≠ .str customer) :
    filteredOrders toLowerCase searchQuery orders = none := by
  induction orders with
  | nil =>
    obtain ⟨o, hm, _⟩ := h
    cases hm
  | cons order rest ih =>
    obtain ⟨o, hm, ho⟩ := h
    cases hk : keeps toLowerCase searchQuery order with
    | none => simp [filteredOrders, hk]
    | some keep =>
      have hne : o ≠ order := by
        intro e
        subst e
        unfold keeps at hk
        simp only [hq, if_false] at hk
        cases hcust : o.customer with
        | str c => exact ho c hcust
        | undefined => cases hk
        | null => cases hk
        | bool b => cases hk
        | num n => cases hk
        | object r => cases hk
      have hrest : o ∈ rest := by
        rcases List.mem_cons.mp hm with e | e
        · exact absurd e hne
        · exact e
      simp [filteredOrders, hk, ih ⟨o, hrest, ho⟩]

/-- C18 as stated fails. With the query "ann", a loaded list holding an order
whose `customer` field is missing makes the filter throw: `order.customer` is
`undefined` and has no `toLowerCase`. -/
theorem filter_throws_on_missing_customer :
    filteredOrders asciiLower "ann" [⟨.str "Annapurani", 1⟩, ⟨.undefined, 2⟩] = none := by
  decide

/-- C18, amended. For every loaded order list and every search query,
`filteredOrders` is the whole list when the query is empty (no `customer` field
is read); with a non-empty query over orders whose `customer` is a string it
is the sublist, in the original order, of the orders whose customer contains
the query as a substring, both taken in lower case; with a non-empty query the
filter throws when some order's `customer` is not a string. -/
theorem filteredOrders_by_customer (toLowerCase : String → String) (searchQuery : String)
    (orders : List Order) :
    (searchQuery = "" → filteredOrders toLowerCase searchQuery orders = some orders) ∧
    (searchQuery ≠ "" → (∀ order ∈ orders, ∃ customer, order.customer = .str customer) →
      ∃ kept, filteredOrders toLowerCase searchQuery orders = some kept ∧
        kept.Sublist orders ∧
        ∀ order, order ∈ kept ↔ order ∈ orders ∧ ∃ customer,
          order.customer = .str customer ∧
          includes (toLowerCase customer) (toLowerCase searchQuery) = true) ∧
    (searchQuery ≠ "" → (∃ order ∈ orders, ∀ customer, order.customer ≠ .str customer) →
      filteredOrders toLowerCase searchQuery orders = none) := by
  refine ⟨?_, ?_, fun hq => filteredOrders_throws toLowerCase searchQuery hq orders⟩
  · intro hq
    rw [hq]
    exact filteredOrders_empty_query toLowerCase orders
  · intro hq hs
    refine ⟨_, filteredOrders_strings toLowerCase searchQuery hq orders hs,
      List.filter_sublist orders, ?_⟩
    intro order
    rw [List.mem_filter]
    constructor
    · rintro ⟨hm, hk⟩
      obtain ⟨customer, hc⟩ := hs order hm
      rw [hc] at hk
      exact ⟨hm, customer, hc, hk⟩
    · rintro ⟨hm, customer, hc, hk⟩
      refine ⟨hm, ?_⟩
      rw [hc]
      exact hk

theorem filteredOrders_by_customer_witness :
    ∃ kept, filteredOrders asciiLower "ann" [⟨.str "Annapurani", 1⟩, ⟨.str "Bob", 2⟩]
        = some kept ∧
      kept.Sublist [⟨.str "Annapurani", 1⟩, ⟨.str "Bob", 2⟩] ∧
      ∀ order, order ∈ kept ↔
        order ∈ [(⟨.str "Annapurani", 1⟩ : Order), ⟨.str "Bob", 2⟩] ∧ ∃ customer,
          order.customer = .str customer ∧
          includes (asciiLower customer) (asciiLower "ann") = true :=
  (filteredOrders_by_customer asciiLower "ann" [⟨.str "Annapurani", 1⟩, ⟨.str "Bob", 2⟩]).2.1
    (by decide) (by
      intro order hm
      simp only [List.mem_cons, List.mem_singleton, List.not_mem_nil, or_false] at hm
      rcases hm with h | h
      · exact ⟨"Annapurani", by rw [h]⟩
      · exact ⟨"Bob", by rw [h]⟩)

end Orders
